import Mathlib

/-!
Verification of the DQN agent of this repository (two CartPole notebooks
plus the `rl_algos.dqn_agent` module they import).

The notebooks' `train_dqn` functions are embedded directly from their
source cells.  The agent core (replay buffer, epsilon-greedy policy,
Q-network, TD-target pipeline) lives in `rl_algos/dqn_agent.py`, which is
imported by the notebooks but not part of the tree here; those components
are modelled from the specification, as indicated on each definition.

Numeric values (rewards, Q-values, epsilon) are embedded as rationals;
machine-float rounding is not modelled.
-/

namespace DQN

/-- Hyperparameter record, from the `params` dict printed in the notebooks:
`{replay_buffer_size, batch_size, discount, hidden_layers, eps_start,
eps_end, eps_decay}` (optimizer/loss/tau fields are opaque to the claims). -/
structure Params where
  replay_buffer_size : ℕ
  batch_size : ℕ
  discount : ℚ
  eps_start : ℚ
  eps_end : ℚ
  eps_decay : ℚ
deriving Repr, DecidableEq

/-- The exploration rate at the start of episode `n` (0-indexed) in
`train_dqn`: initialised to `eps_start` before the episode loop, and after
each episode updated by `eps = max(params['eps_end'], eps*params['eps_decay'])`. -/
def epsSeq (p : Params) : ℕ → ℚ
  | 0 => p.eps_start
  | n + 1 => max p.eps_end (epsSeq p n * p.eps_decay)

/-! ## Transition Buffer (experience replay store)

`rl_algos/dqn_agent.py` is not in the tree; the buffer is modelled from the
spec: a fixed-capacity ring container with FIFO eviction on insert and
uniform random sampling without duplication within a batch. -/

/-- Modelled from the spec: a Transition as stored by the agent —
`(state, action, reward, next_state, terminal)` with states as rational
vectors. -/
structure Transition where
  state : List ℚ
  action : ℕ
  reward : ℚ
  next_state : List ℚ
  done : Bool
deriving Repr, DecidableEq, Inhabited

/-- Modelled from the spec: the Transition Buffer, an ordered ring container
with fixed maximum capacity.  `data` lists the held entries oldest first. -/
structure ReplayBuffer (α : Type) where
  capacity : ℕ
  data : List α
deriving Repr, DecidableEq

/-- Modelled from the spec: a freshly constructed, empty buffer. -/
def ReplayBuffer.emptyBuf (α : Type) (cap : ℕ) : ReplayBuffer α := ⟨cap, []⟩

/-- The `size()` accessor of the buffer. -/
def ReplayBuffer.size {α : Type} (b : ReplayBuffer α) : ℕ := b.data.length

/-- Modelled from the spec: `insert(transition)` — always succeeds, evicting
the oldest entry when the buffer is at capacity (FIFO overwrite). -/
def ReplayBuffer.insert {α : Type} (b : ReplayBuffer α) (t : α) : ReplayBuffer α :=
  ⟨b.capacity, (b.data ++ [t]).drop (b.data.length + 1 - b.capacity)⟩

/-- A whole sequence of insertions, oldest first. -/
def ReplayBuffer.insertAll {α : Type} (b : ReplayBuffer α) (ts : List α) : ReplayBuffer α :=
  ts.foldl ReplayBuffer.insert b

/-- Modelled from the spec: the error raised by `sample` when asked for more
transitions than currently held. -/
inductive SampleError where
  | insufficientData
deriving Repr, DecidableEq

/-- Modelled from the spec: the seedable random source behind
`sample` — a deterministic stand-in producing `batch` distinct indices below
`n` (a window of the index ring starting at the seed), standing for one draw
without replacement. -/
def sampleIndices (n batch seed : ℕ) : List ℕ :=
  (List.range batch).map fun k => (seed + k) % n

/-- The entries drawn for one batch, reading the sampled indices. -/
def sampledBatch {α : Type} [Inhabited α] (b : ReplayBuffer α) (batch seed : ℕ) : List α :=
  (sampleIndices b.size batch seed).map fun i => b.data.getD i default

/-- Modelled from the spec: `sample(batch_size)` — fails with
`InsufficientDataError` when the current size is below `batch_size`,
otherwise returns `batch_size` entries at distinct indices. -/
def ReplayBuffer.sample {α : Type} [Inhabited α] (b : ReplayBuffer α)
    (batch seed : ℕ) : Except SampleError (List α) :=
  if b.size < batch then .error .insufficientData
  else .ok (sampledBatch b batch seed)

/-! ## Epsilon-greedy exploration policy -/

/-- Maximum of a list of action values (the `max_a'` of the TD target). -/
def listMax : List ℚ → ℚ
  | [] => 0
  | [x] => x
  | x :: y :: xs => max x (listMax (y :: xs))

/-- Index of the first maximal element — the standard max-index operation,
breaking ties toward the lowest index. -/
def argmaxIdx : List ℚ → ℕ
  | [] => 0
  | [_] => 0
  | x :: y :: xs => if listMax (y :: xs) ≤ x then 0 else argmaxIdx (y :: xs) + 1

/-- Modelled from the spec: `select_action(state, epsilon, approximator)`.
The two random draws of the seedable source are explicit arguments:
`randVal` is the uniform draw in `[0,1)` compared against `epsilon`, and
`randAction` the uniform draw over the action set used when exploring. -/
def selectAction (predictQ : List ℚ → List ℚ) (state : List ℚ) (epsilon : ℚ)
    (numActions : ℕ) (randVal : ℚ) (randAction : ℕ) : ℕ :=
  if randVal < epsilon then randAction % numActions
  else argmaxIdx (predictQ state)

/-! ## Action-value approximator (Q-network) and parameter persistence -/

def dotProd : List ℚ → List ℚ → ℚ
  | [], _ => 0
  | _, [] => 0
  | x :: xs, y :: ys => x * y + dotProd xs ys

def matVec (w : List (List ℚ)) (v : List ℚ) : List ℚ :=
  w.map fun row => dotProd row v

def addVec (u v : List ℚ) : List ℚ := List.zipWith (· + ·) u v

def reluVec (v : List ℚ) : List ℚ := v.map fun x => max x 0

/-- Modelled from the spec: a feed-forward approximator — a sequence of
linear layers `(weights, bias)` with ReLU between hidden layers and a raw
linear output layer. -/
structure QNetwork where
  layers : List (List (List ℚ) × List ℚ)
deriving Repr, DecidableEq

def forwardLayers : List (List (List ℚ) × List ℚ) → List ℚ → List ℚ
  | [], v => v
  | [wb], v => addVec (matVec wb.1 v) wb.2
  | wb :: l :: rest, v => forwardLayers (l :: rest) (reluVec (addVec (matVec wb.1 v) wb.2))

/-- Modelled from the spec: `predict(state)` — forward evaluation, pure. -/
def QNetwork.predict (net : QNetwork) (s : List ℚ) : List ℚ :=
  forwardLayers net.layers s

/-- Modelled from the spec: `export_parameters()` — the parameter blob, a
flat serialization of all weights and biases (standing for the saved
`state_dict`). -/
def QNetwork.exportParameters (net : QNetwork) : List ℚ :=
  net.layers.flatMap fun wb => wb.1.flatten ++ wb.2

/-- Split a flat source into rows shaped like the template matrix,
returning the rows and the unconsumed remainder. -/
def reshapeRows : List (List ℚ) → List ℚ → List (List ℚ) × List ℚ
  | [], src => ([], src)
  | row :: rows, src =>
      let r := src.take row.length
      let rec' := reshapeRows rows (src.drop row.length)
      (r :: rec'.1, rec'.2)

/-- Rebuild a layer list from a flat blob, shapes taken from the template
layers (as `load_state_dict` uses the target module's shapes). -/
def reshapeLayers : List (List (List ℚ) × List ℚ) → List ℚ → List (List (List ℚ) × List ℚ)
  | [], _ => []
  | wb :: rest, src =>
      let w := reshapeRows wb.1 src
      let b := w.2.take wb.2.length
      (w.1, b) :: reshapeLayers rest (w.2.drop wb.2.length)

/-- Modelled from the spec: `load_parameters(blob)` — deserialize a blob
into the network, shapes taken from the existing architecture. -/
def QNetwork.loadParameters (net : QNetwork) (blob : List ℚ) : QNetwork :=
  ⟨reshapeLayers net.layers blob⟩

/-! ## Learning agent -/

/-- The batch and TD targets of one learning update, as observed during
`step` (recorded so the theorems can speak about them). -/
structure LearnRecord where
  batch : List Transition
  targets : List ℚ
deriving Repr, DecidableEq

/-- Modelled from the spec: the TD target of one sampled transition —
`reward` when terminal, else `reward + γ · max_a' Q(next_state, a'; θ)`. -/
def tdTarget (γ : ℚ) (net : QNetwork) (t : Transition) : ℚ :=
  if t.done then t.reward else t.reward + γ * listMax (net.predict t.next_state)

/-- Modelled from the spec: the Learning Agent — approximator, buffer,
hyperparameters, and an update counter exposing how many optimization steps
have run. -/
structure DQNAgentM where
  numActions : ℕ
  params : Params
  policy : QNetwork
  buffer : ReplayBuffer Transition
  updateCount : ℕ
deriving Repr

/-- Modelled from the spec: `act(state, epsilon)` — delegates to the
epsilon-greedy policy over the current approximator, no side effects. -/
def DQNAgentM.act (a : DQNAgentM) (s : List ℚ) (eps randVal : ℚ) (randAction : ℕ) : ℕ :=
  selectAction a.policy.predict s eps a.numActions randVal randAction

/-- Modelled from the spec: `step(state, action, reward, next_state, done)` —
insert the transition; when the buffer holds at least `batch_size`
transitions, sample a batch, compute TD targets from the same approximator
used for action selection, and run one optimizer update (`upd` abstracts
the gradient step, whose numerics are outside the algorithmic claims);
otherwise skip silently.  Also returns what the learning phase did. -/
def DQNAgentM.stepWithLog (upd : QNetwork → List Transition → List ℚ → QNetwork)
    (a : DQNAgentM) (t : Transition) (seed : ℕ) : DQNAgentM × Option LearnRecord :=
  let buf := a.buffer.insert t
  if a.params.batch_size ≤ buf.size then
    match buf.sample a.params.batch_size seed with
    | .ok batch =>
        let targets := batch.map (tdTarget a.params.discount a.policy)
        ({ a with buffer := buf, policy := upd a.policy batch targets,
                  updateCount := a.updateCount + 1 }, some ⟨batch, targets⟩)
    | .error _ => ({ a with buffer := buf }, none)
  else ({ a with buffer := buf }, none)

/-- The agent-state part of `step`. -/
def DQNAgentM.step (upd : QNetwork → List Transition → List ℚ → QNetwork)
    (a : DQNAgentM) (t : Transition) (seed : ℕ) : DQNAgentM :=
  (DQNAgentM.stepWithLog upd a t seed).1

/-! ## The notebooks' `train_dqn` training loops

The environment and the agent are abstracted exactly as the loops use them:
`reset`, `step` (deterministic given episode index, step index and state —
any stochasticity is folded into these functions), and the agent operations
`act`/`step` plus construction and `load_state_dict`. -/

/-- The environment collaborator as `train_dqn` consumes it. -/
structure TrainEnv (σ : Type) where
  reset : ℕ → σ
  step : ℕ → ℕ → σ → ℕ → σ × ℚ × Bool

/-- The agent as `train_dqn` consumes it (`DQNAgent(states, actions, params)`
construction, `act`, `step`, `policy_network.load_state_dict`). -/
structure AgentSim (σ α τ : Type) where
  mkAgent : Params → α
  act : α → σ → ℚ → ℕ
  stepUpd : α → σ → ℕ → ℚ → σ → Bool → α
  loadStateDict : α → τ → α

/-- One episode of the inner `for t in range(1000)` loop: act, step the
environment, feed the transition to the agent, accumulate the score, stop
on `done`.  Returns the agent, the episode score, and the number of
environment steps taken. -/
def runEpisode {σ α τ : Type} (e : TrainEnv σ) (a : AgentSim σ α τ) (ep : ℕ)
    (eps : ℚ) : α → σ → ℕ → ℕ → α × ℚ × ℕ
  | ag, _, _, 0 => (ag, 0, 0)
  | ag, s, t, fuel + 1 =>
      let act := a.act ag s eps
      let out := e.step ep t s act
      let ag' := a.stepUpd ag s act out.2.1 out.1 out.2.2
      if out.2.2 then (ag', out.2.1, 1)
      else
        let rest := runEpisode e a ep eps ag' out.1 (t + 1) fuel
        (rest.1, out.2.1 + rest.2.1, rest.2.2 + 1)

/-- The solve metric `np.mean(scores_window)` where
`scores_window = deque(maxlen=100)`: mean of the last (up to) 100 episode
scores. -/
def windowMean (scores : List ℚ) : ℚ :=
  let w := scores.drop (scores.length - 100)
  w.sum / (w.length : ℚ)

/-- What a training run did: the returned `(scores, agent)` pair plus, for
the theorems, the epsilon passed to `agent.act` in each episode and the
number of environment steps of each episode. -/
structure TrainResult (α : Type) where
  scores : List ℚ
  agent : α
  epsUsed : List ℚ
  stepsUsed : List ℕ
deriving Repr

/-- The episode loop of the first notebook's `train_dqn`
(`for episode in range(max_episodes)` with the solve check
`np.mean(scores_window) >= 195.0`), recursing on remaining episodes. -/
def trainLoopA {σ α τ : Type} (e : TrainEnv σ) (a : AgentSim σ α τ) (p : Params) :
    α → ℚ → List ℚ → List ℚ → List ℕ → ℕ → ℕ → TrainResult α
  | ag, _, scores, epsAcc, stepsAcc, _, 0 => ⟨scores, ag, epsAcc, stepsAcc⟩
  | ag, eps, scores, epsAcc, stepsAcc, epIdx, rem + 1 =>
      let s0 := e.reset epIdx
      let res := runEpisode e a epIdx eps ag s0 0 1000
      let scores' := scores ++ [res.2.1]
      let eps' := max p.eps_end (eps * p.eps_decay)
      if 195 ≤ windowMean scores' then
        ⟨scores', res.1, epsAcc ++ [eps], stepsAcc ++ [res.2.2]⟩
      else
        trainLoopA e a p res.1 eps' scores' (epsAcc ++ [eps])
          (stepsAcc ++ [res.2.2]) (epIdx + 1) rem

/-- The first notebook's `train_dqn(env, params, monitor, save_vid_every_n_episodes,
max_episodes, state_dict)`.  `mw` stands for the external `wrappers.Monitor`
environment wrapper. -/
def trainDqnA {σ α τ : Type} (e : TrainEnv σ) (mw : TrainEnv σ → ℕ → TrainEnv σ)
    (a : AgentSim σ α τ) (p : Params) (monitor : Bool) (saveVidEvery : ℕ)
    (maxEpisodes : ℕ) (stateDict : Option τ) : TrainResult α :=
  let agent := a.mkAgent p
  let eps := p.eps_start
  let env := if monitor then mw e saveVidEvery else e
  let agent := match stateDict with
    | some sd => a.loadStateDict agent sd
    | none => agent
  trainLoopA env a p agent eps [] [] [] 0 maxEpisodes

/-- The episode loop of the second notebook's `train_dqn`
(`for episode in range(2000)`, same body). -/
def trainLoopB {σ α τ : Type} (e : TrainEnv σ) (a : AgentSim σ α τ) (p : Params) :
    α → ℚ → List ℚ → List ℚ → List ℕ → ℕ → ℕ → TrainResult α
  | ag, _, scores, epsAcc, stepsAcc, _, 0 => ⟨scores, ag, epsAcc, stepsAcc⟩
  | ag, eps, scores, epsAcc, stepsAcc, epIdx, rem + 1 =>
      let s0 := e.reset epIdx
      let res := runEpisode e a epIdx eps ag s0 0 1000
      let scores' := scores ++ [res.2.1]
      let eps' := max p.eps_end (eps * p.eps_decay)
      if 195 ≤ windowMean scores' then
        ⟨scores', res.1, epsAcc ++ [eps], stepsAcc ++ [res.2.2]⟩
      else
        trainLoopB e a p res.1 eps' scores' (epsAcc ++ [eps])
          (stepsAcc ++ [res.2.2]) (epIdx + 1) rem

/-- The second notebook's `train_dqn()` (globals `env`, `params` passed
explicitly): always 2000 episodes maximum, no monitor, no state_dict. -/
def trainDqnB {σ α τ : Type} (e : TrainEnv σ) (a : AgentSim σ α τ) (p : Params) :
    TrainResult α :=
  trainLoopB e a p (a.mkAgent p) p.eps_start [] [] [] 0 2000

/-! # Theorems -/

/-! ## Epsilon decay -/

/-- Under `eps_end ≤ eps_start`, every term of the decay sequence stays
above `eps_end`. -/
theorem epsSeq_lower (p : Params) (hle : p.eps_end ≤ p.eps_start) :
    ∀ n, p.eps_end ≤ epsSeq p n
  | 0 => hle
  | _ + 1 => le_max_left _ _

theorem epsSeq_nonneg (p : Params) (hend : 0 ≤ p.eps_end)
    (hle : p.eps_end ≤ p.eps_start) (n : ℕ) : 0 ≤ epsSeq p n :=
  le_trans hend (epsSeq_lower p hle n)

theorem epsSeq_antitone_step (p : Params) (hend : 0 ≤ p.eps_end)
    (hle : p.eps_end ≤ p.eps_start) (hd1 : p.eps_decay ≤ 1) (n : ℕ) :
    epsSeq p (n + 1) ≤ epsSeq p n := by
  have hnn : 0 ≤ epsSeq p n := epsSeq_nonneg p hend hle n
  have hmul : epsSeq p n * p.eps_decay ≤ epsSeq p n :=
    mul_le_of_le_one_right hnn hd1
  exact max_le (epsSeq_lower p hle n) hmul

theorem epsSeq_upper (p : Params) (hend : 0 ≤ p.eps_end)
    (hle : p.eps_end ≤ p.eps_start) (hd1 : p.eps_decay ≤ 1) (n : ℕ) :
    epsSeq p n ≤ p.eps_start := by
  induction n with
  | zero => exact le_refl _
  | succ n ih => exact le_trans (epsSeq_antitone_step p hend hle hd1 n) ih

/-- Closed form of the decay sequence: `max eps_end (eps_start * eps_decay ^ n)`,
valid when `0 ≤ eps_end ≤ eps_start` and `eps_decay ∈ [0, 1]`. -/
theorem epsSeq_closed_form (p : Params) (hend : 0 ≤ p.eps_end)
    (hle : p.eps_end ≤ p.eps_start) (hd0 : 0 ≤ p.eps_decay) (hd1 : p.eps_decay ≤ 1)
    (n : ℕ) : epsSeq p n = max p.eps_end (p.eps_start * p.eps_decay ^ n) := by
  induction n with
  | zero =>
      simp only [epsSeq, pow_zero, mul_one]
      exact (max_eq_right hle).symm
  | succ n ih =>
      have hmax : max p.eps_end (p.eps_start * p.eps_decay ^ n) * p.eps_decay
          = max (p.eps_end * p.eps_decay) (p.eps_start * p.eps_decay ^ n * p.eps_decay) :=
        max_mul_of_nonneg _ _ hd0
      have hend_shrink : p.eps_end * p.eps_decay ≤ p.eps_end :=
        mul_le_of_le_one_right hend hd1
      calc epsSeq p (n + 1) = max p.eps_end (epsSeq p n * p.eps_decay) := rfl
        _ = max p.eps_end (max (p.eps_end * p.eps_decay)
              (p.eps_start * p.eps_decay ^ n * p.eps_decay)) := by rw [ih, hmax]
        _ = max (max p.eps_end (p.eps_end * p.eps_decay))
              (p.eps_start * p.eps_decay ^ n * p.eps_decay) := by rw [max_assoc]
        _ = max p.eps_end (p.eps_start * p.eps_decay ^ (n + 1)) := by
              rw [max_eq_left hend_shrink, pow_succ, mul_assoc]

/-! ## Buffer lemmas -/

theorem ReplayBuffer.capacity_insert {α : Type} (b : ReplayBuffer α) (t : α) :
    (b.insert t).capacity = b.capacity := rfl

/-- A single insert always succeeds and lands at size `min (size + 1) capacity`,
whatever the prior size. -/
theorem ReplayBuffer.size_insert {α : Type} (b : ReplayBuffer α) (t : α) :
    (b.insert t).size = min (b.size + 1) b.capacity := by
  simp only [ReplayBuffer.insert, ReplayBuffer.size, List.length_drop,
    List.length_append, List.length_singleton]
  omega

theorem ReplayBuffer.capacity_insertAll {α : Type} (ts : List α) :
    ∀ b : ReplayBuffer α, (b.insertAll ts).capacity = b.capacity := by
  induction ts with
  | nil => intro b; rfl
  | cons t ts ih =>
      intro b
      simpa [ReplayBuffer.insertAll, List.foldl_cons] using ih (b.insert t)

/-- Contents after a sequence of insertions into a well-formed buffer: the
concatenation of old and new entries, truncated to the most recent
`capacity` of them. -/
theorem ReplayBuffer.insertAll_data {α : Type} (ts : List α) :
    ∀ b : ReplayBuffer α, b.data.length ≤ b.capacity →
      (b.insertAll ts).data
        = (b.data ++ ts).drop (b.data.length + ts.length - b.capacity) := by
  induction ts with
  | nil =>
      intro b hwf
      simp only [ReplayBuffer.insertAll, List.foldl_nil, List.append_nil, List.length_nil]
      rw [show b.data.length + 0 - b.capacity = 0 by omega, List.drop_zero]
  | cons t ts ih =>
      intro b hwf
      have hstep : (b.insert t).data.length ≤ (b.insert t).capacity := by
        have := ReplayBuffer.size_insert b t
        simp only [ReplayBuffer.size] at this
        simp only [ReplayBuffer.capacity_insert, this]
        omega
      have hrec := ih (b.insert t) hstep
      have hsz := ReplayBuffer.size_insert b t
      simp only [ReplayBuffer.size] at hsz
      simp only [ReplayBuffer.insertAll, List.foldl_cons] at hrec ⊢
      rw [hrec]
      simp only [ReplayBuffer.insert, ReplayBuffer.capacity_insert]
      have hle : b.data.length + 1 - b.capacity ≤ (b.data ++ [t]).length := by
        simp only [List.length_append, List.length_singleton]; omega
      have hlen : ((b.data ++ [t]).drop (b.data.length + 1 - b.capacity)).length
          = min (b.data.length + 1) b.capacity := by
        simp only [List.length_drop, List.length_append, List.length_singleton]; omega
      rw [hlen, ← List.drop_append_of_le_length hle, List.drop_drop]
      have harr : (b.data ++ [t]) ++ ts = b.data ++ t :: ts := by
        simp
      rw [harr]
      congr 1
      simp only [List.length_cons]
      omega

/-! ## Sampling lemmas -/

theorem sampleIndices_length (n batch seed : ℕ) :
    (sampleIndices n batch seed).length = batch := by
  simp [sampleIndices]

theorem sampleIndices_lt (n batch seed : ℕ) (hn : 0 < n) :
    ∀ i ∈ sampleIndices n batch seed, i < n := by
  intro i hi
  simp only [sampleIndices, List.mem_map, List.mem_range] at hi
  obtain ⟨k, -, rfl⟩ := hi
  exact Nat.mod_lt _ hn

theorem sampleIndices_nodup (n batch seed : ℕ) (h : batch ≤ n) :
    (sampleIndices n batch seed).Nodup := by
  refine List.Nodup.map_on ?_ (List.nodup_range batch)
  intro k₁ h₁ k₂ h₂ heq
  rw [List.mem_range] at h₁ h₂
  have hmod : Nat.ModEq n k₁ k₂ :=
    Nat.ModEq.add_left_cancel' seed heq
  have hk := hmod
  unfold Nat.ModEq at hk
  rwa [Nat.mod_eq_of_lt (lt_of_lt_of_le h₁ h), Nat.mod_eq_of_lt (lt_of_lt_of_le h₂ h)] at hk

/-! ## List index helpers -/

theorem getD_append_left {α : Type} (l₁ l₂ : List α) (j : ℕ) (d : α)
    (h : j < l₁.length) : (l₁ ++ l₂).getD j d = l₁.getD j d := by
  rw [List.getD_eq_getElem _ _ (by simp; omega), List.getD_eq_getElem _ _ h,
    List.getElem_append_left h]

theorem getD_append_right {α : Type} (l₁ l₂ : List α) (k : ℕ) (d : α) :
    (l₁ ++ l₂).getD (l₁.length + k) d = l₂.getD k d := by
  by_cases h : k < l₂.length
  · rw [List.getD_eq_getElem _ _ (by simp; omega), List.getD_eq_getElem _ _ h]
    rw [List.getElem_append_right (by omega)]
    congr 1
    omega
  · rw [List.getD_eq_default _ _ (by simp; omega), List.getD_eq_default _ _ (by omega)]

/-! ## Episode and training-loop lemmas -/

theorem runEpisode_steps_le {σ α τ : Type} (e : TrainEnv σ) (a : AgentSim σ α τ)
    (ep : ℕ) (eps : ℚ) :
    ∀ (fuel : ℕ) (ag : α) (s : σ) (t : ℕ),
      (runEpisode e a ep eps ag s t fuel).2.2 ≤ fuel := by
  intro fuel
  induction fuel with
  | zero => intro ag s t; simp [runEpisode]
  | succ fuel ih =>
      intro ag s t
      simp only [runEpisode]
      split
      · dsimp only
        omega
      · dsimp only
        have := ih (a.stepUpd ag s (a.act ag s eps) (e.step ep t s (a.act ag s eps)).2.1
          (e.step ep t s (a.act ag s eps)).1 (e.step ep t s (a.act ag s eps)).2.2)
          (e.step ep t s (a.act ag s eps)).1 (t + 1)
        omega

theorem runEpisode_done_le {σ α τ : Type} (e : TrainEnv σ) (a : AgentSim σ α τ)
    (ep t : ℕ) (eps : ℚ)
    (ht : ∀ (s : σ) (act : ℕ), (e.step ep t s act).2.2 = true) :
    ∀ (fuel : ℕ) (ag : α) (s : σ) (t₀ : ℕ), t₀ ≤ t →
      (runEpisode e a ep eps ag s t₀ fuel).2.2 ≤ t + 1 - t₀ := by
  intro fuel
  induction fuel with
  | zero => intro ag s t₀ hle; simp [runEpisode]
  | succ fuel ih =>
      intro ag s t₀ hle
      simp only [runEpisode]
      split
      case isTrue h =>
        dsimp only
        omega
      case isFalse h =>
        dsimp only
        have hne : t₀ ≠ t := by
          intro hcontra
          exact h (hcontra ▸ ht s (a.act ag s eps))
        have hlt : t₀ + 1 ≤ t := by omega
        have := ih (a.stepUpd ag s (a.act ag s eps) (e.step ep t₀ s (a.act ag s eps)).2.1
          (e.step ep t₀ s (a.act ag s eps)).1 (e.step ep t₀ s (a.act ag s eps)).2.2)
          (e.step ep t₀ s (a.act ag s eps)).1 (t₀ + 1) hlt
        omega

/-- Accumulator shape of the episode loop: the result extends the incoming
score, epsilon and step-count accumulators in step, one new entry per
episode, at most `rem` of them. -/
theorem trainLoopA_ext {σ α τ : Type} (e : TrainEnv σ) (a : AgentSim σ α τ) (p : Params) :
    ∀ (rem : ℕ) (ag : α) (eps : ℚ) (scores epsAcc : List ℚ) (stepsAcc : List ℕ) (epIdx : ℕ),
      ∃ x1 x2 x3,
        (trainLoopA e a p ag eps scores epsAcc stepsAcc epIdx rem).scores = scores ++ x1
        ∧ (trainLoopA e a p ag eps scores epsAcc stepsAcc epIdx rem).epsUsed = epsAcc ++ x2
        ∧ (trainLoopA e a p ag eps scores epsAcc stepsAcc epIdx rem).stepsUsed = stepsAcc ++ x3
        ∧ x1.length = x2.length ∧ x2.length = x3.length ∧ x1.length ≤ rem := by
  intro rem
  induction rem with
  | zero =>
      intro ag eps scores epsAcc stepsAcc epIdx
      exact ⟨[], [], [], by simp [trainLoopA], by simp [trainLoopA], by simp [trainLoopA],
        rfl, rfl, le_refl _⟩
  | succ rem ih =>
      intro ag eps scores epsAcc stepsAcc epIdx
      simp only [trainLoopA]
      split
      · exact ⟨[(runEpisode e a epIdx eps ag (e.reset epIdx) 0 1000).2.1], [eps],
          [(runEpisode e a epIdx eps ag (e.reset epIdx) 0 1000).2.2],
          rfl, rfl, rfl, rfl, rfl, by simp⟩
      · obtain ⟨y1, y2, y3, h1, h2, h3, hl12, hl23, hlen⟩ :=
          ih (runEpisode e a epIdx eps ag (e.reset epIdx) 0 1000).1
            (max p.eps_end (eps * p.eps_decay))
            (scores ++ [(runEpisode e a epIdx eps ag (e.reset epIdx) 0 1000).2.1])
            (epsAcc ++ [eps])
            (stepsAcc ++ [(runEpisode e a epIdx eps ag (e.reset epIdx) 0 1000).2.2])
            (epIdx + 1)
        refine ⟨(runEpisode e a epIdx eps ag (e.reset epIdx) 0 1000).2.1 :: y1,
          eps :: y2, (runEpisode e a epIdx eps ag (e.reset epIdx) 0 1000).2.2 :: y3,
          ?_, ?_, ?_, by simpa using hl12, by simpa using hl23, by simpa using hlen⟩
        · rw [h1, List.append_assoc]; rfl
        · rw [h2, List.append_assoc]; rfl
        · rw [h3, List.append_assoc]; rfl

/-- The epsilon recorded for episode `j` is the `j`-fold decayed `eps_start`. -/
theorem trainLoopA_eps {σ α τ : Type} (e : TrainEnv σ) (a : AgentSim σ α τ) (p : Params) :
    ∀ (rem : ℕ) (ag : α) (eps : ℚ) (scores epsAcc : List ℚ) (stepsAcc : List ℕ) (epIdx : ℕ),
      eps = epsSeq p epsAcc.length →
      (∀ j, j < epsAcc.length → epsAcc.getD j 0 = epsSeq p j) →
      ∀ j, j < (trainLoopA e a p ag eps scores epsAcc stepsAcc epIdx rem).epsUsed.length →
        (trainLoopA e a p ag eps scores epsAcc stepsAcc epIdx rem).epsUsed.getD j 0 = epsSeq p j := by
  intro rem
  induction rem with
  | zero =>
      intro ag eps scores epsAcc stepsAcc epIdx heq hprev j hj
      simp only [trainLoopA] at hj ⊢
      exact hprev j hj
  | succ rem ih =>
      intro ag eps scores epsAcc stepsAcc epIdx heq hprev j hj
      have hprev' : ∀ j, j < (epsAcc ++ [eps]).length → (epsAcc ++ [eps]).getD j 0 = epsSeq p j := by
        intro j hj'
        simp only [List.length_append, List.length_singleton] at hj'
        rcases Nat.lt_or_ge j epsAcc.length with hlt | hge
        · rw [getD_append_left _ _ _ _ hlt]; exact hprev j hlt
        · have hjeq : j = epsAcc.length := by omega
          subst hjeq
          rw [show epsAcc.length = epsAcc.length + 0 from rfl, getD_append_right]
          simpa using heq
      have heq' : max p.eps_end (eps * p.eps_decay) = epsSeq p (epsAcc ++ [eps]).length := by
        simp only [List.length_append, List.length_singleton]
        rw [heq]
        rfl
      simp only [trainLoopA] at hj ⊢
      split_ifs at hj ⊢ with h
      · exact hprev' j (by simpa using hj)
      · exact ih _ _ _ _ _ _ heq' hprev' j hj

/-- Every episode runs at most 1000 environment steps. -/
theorem trainLoopA_stepsUsed_le {σ α τ : Type} (e : TrainEnv σ) (a : AgentSim σ α τ) (p : Params) :
    ∀ (rem : ℕ) (ag : α) (eps : ℚ) (scores epsAcc : List ℚ) (stepsAcc : List ℕ) (epIdx : ℕ),
      (∀ c ∈ stepsAcc, c ≤ 1000) →
      ∀ c ∈ (trainLoopA e a p ag eps scores epsAcc stepsAcc epIdx rem).stepsUsed, c ≤ 1000 := by
  intro rem
  induction rem with
  | zero =>
      intro ag eps scores epsAcc stepsAcc epIdx hacc c hc
      simp only [trainLoopA] at hc
      exact hacc c hc
  | succ rem ih =>
      intro ag eps scores epsAcc stepsAcc epIdx hacc c hc
      have hacc' : ∀ c ∈ stepsAcc ++ [(runEpisode e a epIdx eps ag (e.reset epIdx) 0 1000).2.2],
          c ≤ 1000 := by
        intro c hc'
        rcases List.mem_append.mp hc' with hmem | hmem
        · exact hacc c hmem
        · rcases List.mem_singleton.mp hmem with rfl
          exact runEpisode_steps_le e a epIdx eps 1000 ag (e.reset epIdx) 0
      simp only [trainLoopA] at hc
      split at hc
      case isTrue h => exact hacc' c (by simpa using hc)
      case isFalse h => exact ih _ _ _ _ _ _ hacc' c hc

/-- The loop never continues past a solved window: every proper prefix of
the returned scores that is longer than the incoming accumulator has a
100-episode window mean below 195. -/
theorem trainLoopA_solve {σ α τ : Type} (e : TrainEnv σ) (a : AgentSim σ α τ) (p : Params) :
    ∀ (rem : ℕ) (ag : α) (eps : ℚ) (scores epsAcc : List ℚ) (stepsAcc : List ℕ) (epIdx : ℕ)
      (ℓ : ℕ), scores.length + 1 ≤ ℓ →
      ℓ < (trainLoopA e a p ag eps scores epsAcc stepsAcc epIdx rem).scores.length →
      windowMean ((trainLoopA e a p ag eps scores epsAcc stepsAcc epIdx rem).scores.take ℓ) < 195 := by
  intro rem
  induction rem with
  | zero =>
      intro ag eps scores epsAcc stepsAcc epIdx ℓ hge hlt
      simp only [trainLoopA] at hlt
      omega
  | succ rem ih =>
      intro ag eps scores epsAcc stepsAcc epIdx ℓ hge hlt
      simp only [trainLoopA] at hlt ⊢
      split_ifs at hlt ⊢ with h
      · simp only [List.length_append, List.length_singleton] at hlt
        omega
      · rcases Nat.lt_or_ge ℓ (scores.length + 2) with hsmall | hbig
        · have hleq : ℓ = scores.length + 1 := by omega
          subst hleq
          obtain ⟨y1, y2, y3, h1, -, -, -, -, -⟩ :=
            trainLoopA_ext e a p rem
              (runEpisode e a epIdx eps ag (e.reset epIdx) 0 1000).1
              (max p.eps_end (eps * p.eps_decay))
              (scores ++ [(runEpisode e a epIdx eps ag (e.reset epIdx) 0 1000).2.1])
              (epsAcc ++ [eps])
              (stepsAcc ++ [(runEpisode e a epIdx eps ag (e.reset epIdx) 0 1000).2.2])
              (epIdx + 1)
          rw [h1]
          have hlen : scores.length + 1
              = (scores ++ [(runEpisode e a epIdx eps ag (e.reset epIdx) 0 1000).2.1]).length := by
            simp
          rw [hlen, List.take_left]
          exact lt_of_not_le h
        · have : (scores ++ [(runEpisode e a epIdx eps ag (e.reset epIdx) 0 1000).2.1]).length + 1 ≤ ℓ := by
            simp only [List.length_append, List.length_singleton]
            omega
          exact ih _ _ _ _ _ _ ℓ this hlt

/-- When the environment reports `done` at step index `t` of an episode, the
episode's recorded step count is at most `t + 1`. -/
theorem trainLoopA_done {σ α τ : Type} (e : TrainEnv σ) (a : AgentSim σ α τ) (p : Params) :
    ∀ (rem : ℕ) (ag : α) (eps : ℚ) (scores epsAcc : List ℚ) (stepsAcc : List ℕ) (epIdx : ℕ)
      (i t : ℕ), stepsAcc.length ≤ i →
      i < (trainLoopA e a p ag eps scores epsAcc stepsAcc epIdx rem).stepsUsed.length →
      (∀ (s : σ) (act : ℕ), (e.step (epIdx + (i - stepsAcc.length)) t s act).2.2 = true) →
      (trainLoopA e a p ag eps scores epsAcc stepsAcc epIdx rem).stepsUsed.getD i 0 ≤ t + 1 := by
  intro rem
  induction rem with
  | zero =>
      intro ag eps scores epsAcc stepsAcc epIdx i t hge hlt hdone
      simp only [trainLoopA] at hlt
      omega
  | succ rem ih =>
      intro ag eps scores epsAcc stepsAcc epIdx i t hge hlt hdone
      simp only [trainLoopA] at hlt ⊢
      split_ifs at hlt ⊢ with h
      · simp only [List.length_append, List.length_singleton] at hlt
        have hieq : i = stepsAcc.length := by omega
        subst hieq
        rw [show stepsAcc.length = stepsAcc.length + 0 from rfl, getD_append_right]
        have hdone' : ∀ (s : σ) (act : ℕ), (e.step epIdx t s act).2.2 = true := by
          intro s act
          have := hdone s act
          simpa using this
        have := runEpisode_done_le e a epIdx t eps hdone' 1000 ag (e.reset epIdx) 0 (by omega)
        simpa using this
      · rcases Nat.lt_or_ge i (stepsAcc.length + 1) with hsmall | hbig
        · have hieq : i = stepsAcc.length := by omega
          subst hieq
          obtain ⟨y1, y2, y3, -, -, h3, -, -, -⟩ :=
            trainLoopA_ext e a p rem
              (runEpisode e a epIdx eps ag (e.reset epIdx) 0 1000).1
              (max p.eps_end (eps * p.eps_decay))
              (scores ++ [(runEpisode e a epIdx eps ag (e.reset epIdx) 0 1000).2.1])
              (epsAcc ++ [eps])
              (stepsAcc ++ [(runEpisode e a epIdx eps ag (e.reset epIdx) 0 1000).2.2])
              (epIdx + 1)
          rw [h3, List.append_assoc]
          rw [show stepsAcc.length = stepsAcc.length + 0 from rfl, getD_append_right]
          have hdone' : ∀ (s : σ) (act : ℕ), (e.step epIdx t s act).2.2 = true := by
            intro s act
            have := hdone s act
            simpa using this
          have := runEpisode_done_le e a epIdx t eps hdone' 1000 ag (e.reset epIdx) 0 (by omega)
          simpa using this
        · have harg : (epIdx + 1) + (i - (stepsAcc ++ [(runEpisode e a epIdx eps ag
              (e.reset epIdx) 0 1000).2.2]).length)
              = epIdx + (i - stepsAcc.length) := by
            simp only [List.length_append, List.length_singleton]
            omega
          refine ih _ _ _ _ _ _ i t ?_ hlt ?_
          · simp only [List.length_append, List.length_singleton]; omega
          · intro s act
            rw [harg]
            exact hdone s act

/-- The two notebooks' episode loops coincide. -/
theorem trainLoop_eq {σ α τ : Type} (e : TrainEnv σ) (a : AgentSim σ α τ) (p : Params) :
    ∀ (rem : ℕ) (ag : α) (eps : ℚ) (scores epsAcc : List ℚ) (stepsAcc : List ℕ) (epIdx : ℕ),
      trainLoopA e a p ag eps scores epsAcc stepsAcc epIdx rem
        = trainLoopB e a p ag eps scores epsAcc stepsAcc epIdx rem := by
  intro rem
  induction rem with
  | zero => intro ag eps scores epsAcc stepsAcc epIdx; rfl
  | succ rem ih =>
      intro ag eps scores epsAcc stepsAcc epIdx
      simp only [trainLoopA, trainLoopB]
      split
      · rfl
      · exact ih _ _ _ _ _ _

/-! ## Argmax and list-max lemmas -/

theorem argmaxIdx_lt_length : ∀ l : List ℚ, l ≠ [] → argmaxIdx l < l.length
  | [], h => absurd rfl h
  | [_], _ => by simp [argmaxIdx]
  | x :: y :: xs, _ => by
      by_cases h : listMax (y :: xs) ≤ x
      · simp [argmaxIdx, if_pos h]
      · have ih := argmaxIdx_lt_length (y :: xs) (by simp)
        simp only [argmaxIdx, if_neg h, List.length_cons]
        simp only [List.length_cons] at ih
        omega

theorem getD_argmaxIdx : ∀ l : List ℚ, l ≠ [] → l.getD (argmaxIdx l) 0 = listMax l
  | [], h => absurd rfl h
  | [_], _ => by simp [argmaxIdx, listMax]
  | x :: y :: xs, _ => by
      by_cases h : listMax (y :: xs) ≤ x
      · simp only [argmaxIdx, if_pos h, List.getD_cons_zero, listMax]
        exact (max_eq_left h).symm
      · have ih := getD_argmaxIdx (y :: xs) (by simp)
        simp only [argmaxIdx, if_neg h, List.getD_cons_succ, listMax]
        rw [ih, max_eq_right (le_of_lt (lt_of_not_le h))]

theorem argmaxIdx_first : ∀ (l : List ℚ) (j : ℕ), j < argmaxIdx l → l.getD j 0 < listMax l
  | [], j => by simp [argmaxIdx]
  | [_], j => by simp [argmaxIdx]
  | x :: y :: xs, j => by
      by_cases h : listMax (y :: xs) ≤ x
      · simp [argmaxIdx, if_pos h]
      · intro hj
        simp only [argmaxIdx, if_neg h] at hj
        match j with
        | 0 =>
            simp only [List.getD_cons_zero, listMax]
            rw [max_eq_right (le_of_lt (lt_of_not_le h))]
            exact lt_of_not_le h
        | j + 1 =>
            have ih := argmaxIdx_first (y :: xs) j (by omega)
            simp only [List.getD_cons_succ, listMax]
            rw [max_eq_right (le_of_lt (lt_of_not_le h))]
            exact ih

/-! ## Parameter serialization round-trip -/

theorem reshapeRows_append : ∀ (w : List (List ℚ)) (rest : List ℚ),
    reshapeRows w (w.flatten ++ rest) = (w, rest)
  | [], rest => rfl
  | row :: rows, rest => by
      have ih := reshapeRows_append rows rest
      simp only [reshapeRows, List.flatten_cons, List.append_assoc,
        List.take_left, List.drop_left, ih]

theorem reshapeLayers_roundtrip :
    ∀ (ls : List (List (List ℚ) × List ℚ)) (rest : List ℚ),
      reshapeLayers ls ((ls.flatMap fun wb => wb.1.flatten ++ wb.2) ++ rest) = ls
  | [], _ => rfl
  | wb :: ls, rest => by
      have ih := reshapeLayers_roundtrip ls rest
      simp only [reshapeLayers, List.flatMap_cons, List.append_assoc,
        reshapeRows_append wb.1
          (wb.2 ++ ((ls.flatMap fun wb => wb.1.flatten ++ wb.2) ++ rest)),
        List.take_left, List.drop_left, ih]

theorem loadParameters_exportParameters (net : QNetwork) :
    net.loadParameters net.exportParameters = net := by
  have h := reshapeLayers_roundtrip net.layers []
  rw [List.append_nil] at h
  simp only [QNetwork.loadParameters, QNetwork.exportParameters, h]

theorem exportParameters_ne_nil (net : QNetwork)
    (h : ∃ wb ∈ net.layers, wb.2 ≠ []) : net.exportParameters ≠ [] := by
  intro hc
  obtain ⟨wb, hmem, hne⟩ := h
  have hall := List.flatMap_eq_nil_iff.mp hc wb hmem
  rcases List.append_eq_nil.mp hall with ⟨-, h2⟩
  exact hne h2

/-! ## Agent step characterization -/

theorem getD_map_lt {α : Type} [Inhabited α] (l : List α) (f : α → ℚ) (i : ℕ)
    (h : i < l.length) : (l.map f).getD i 0 = f (l.getD i default) := by
  rw [List.getD_eq_getElem _ _ (by simpa using h), List.getD_eq_getElem _ _ h,
    List.getElem_map]

/-- Full characterization of `DQNAgentM.stepWithLog`: the transition is
always inserted; learning happens exactly when the post-insert size reaches
the batch size, in which case the batch is the sampled one and the targets
are the TD targets over the current policy network. -/
theorem stepWithLog_spec (upd : QNetwork → List Transition → List ℚ → QNetwork)
    (a : DQNAgentM) (t : Transition) (seed : ℕ) :
    DQNAgentM.stepWithLog upd a t seed =
      if a.params.batch_size ≤ (a.buffer.insert t).size then
        ({ a with
            buffer := a.buffer.insert t
            policy := upd a.policy (sampledBatch (a.buffer.insert t) a.params.batch_size seed)
              ((sampledBatch (a.buffer.insert t) a.params.batch_size seed).map
                (tdTarget a.params.discount a.policy))
            updateCount := a.updateCount + 1 },
          some ⟨sampledBatch (a.buffer.insert t) a.params.batch_size seed,
            (sampledBatch (a.buffer.insert t) a.params.batch_size seed).map
              (tdTarget a.params.discount a.policy)⟩)
      else ({ a with buffer := a.buffer.insert t }, none) := by
  simp only [DQNAgentM.stepWithLog]
  split_ifs with h
  · have hs : (a.buffer.insert t).sample a.params.batch_size seed
        = Except.ok (sampledBatch (a.buffer.insert t) a.params.batch_size seed) := by
      simp [ReplayBuffer.sample, not_lt.mpr h]
    rw [hs]
  · rfl

/-! ## Concrete instances used by the witnesses -/

/-- A trivial one-step environment: every episode ends at its first step
with reward 1. -/
def cEnv : TrainEnv Unit := ⟨fun _ => (), fun _ _ _ _ => ((), 1, true)⟩

/-- A trivial agent behaviour for exercising the training loop. -/
def cAgent : AgentSim Unit Unit Unit :=
  ⟨fun _ => (), fun _ _ _ => 0, fun _ _ _ _ _ _ => (), fun _ _ => ()⟩

/-- A monitor wrapper that changes nothing (the claims fix `monitor=False`,
so it is never applied). -/
def cWrap : TrainEnv Unit → ℕ → TrainEnv Unit := fun e _ => e

/-- The notebooks' hyperparameters (minus the opaque optimizer fields). -/
def cParams : Params := ⟨50000, 64, 99/100, 1, 1/100, 49/50⟩

/-- A parameter set with `eps_start < eps_end`, exhibiting the missing
precondition of the closed-form epsilon formula. -/
def cParamsBad : Params := ⟨10, 2, 99/100, 0, 1, 1/2⟩

/-- A mocked approximator that returns `[1, 5]` on every state. -/
def cNet : QNetwork := ⟨[([[], []], [1, 5])]⟩

/-- A two-layer network exercising the hidden ReLU path. -/
def cNet2 : QNetwork := ⟨[([[1, 2], [3, 4]], [5, 6]), ([[1, 0]], [7])]⟩

/-- Hyperparameters with `batch_size = 1` and `γ = 9/10` for the TD-target
witness. -/
def cParams1 : Params := ⟨5, 1, 9/10, 1, 1/100, 49/50⟩

/-- A non-terminal transition with reward 2. -/
def cTransition : Transition := ⟨[0], 0, 2, [0], false⟩

/-- A concrete agent: mocked approximator, empty buffer of capacity 5. -/
def cAgentM : DQNAgentM := ⟨2, cParams1, cNet, ⟨5, []⟩, 0⟩

/-- An optimizer stub that leaves the network unchanged. -/
def cUpd : QNetwork → List Transition → List ℚ → QNetwork := fun n _ _ => n

/-! ## Claim theorems -/

/-- C3: for every sequence of insertions, `size() ≤ capacity` holds at all
times, `insert` always succeeds (landing at size `min (size+1) capacity`),
and after `capacity + k` insertions the buffer holds exactly the most
recent `capacity` transitions in order — the oldest `k` evicted FIFO. -/
theorem buffer_capacity_fifo (α : Type) (cap k : ℕ) (ts : List α)
    (hlen : ts.length = cap + k) :
    (∀ pre suf : List α, ts = pre ++ suf →
      ((ReplayBuffer.emptyBuf α cap).insertAll pre).size ≤ cap)
    ∧ (∀ (b : ReplayBuffer α) (t : α), (b.insert t).size = min (b.size + 1) b.capacity)
    ∧ ((ReplayBuffer.emptyBuf α cap).insertAll ts).data = ts.drop k := by
  refine ⟨?_, fun b t => ReplayBuffer.size_insert b t, ?_⟩
  · intro pre _ _
    have h := ReplayBuffer.insertAll_data pre (ReplayBuffer.emptyBuf α cap)
      (by simp [ReplayBuffer.emptyBuf])
    simp only [ReplayBuffer.size, h]
    simp only [ReplayBuffer.emptyBuf, List.nil_append, List.length_nil, List.length_drop]
    omega
  · have h := ReplayBuffer.insertAll_data ts (ReplayBuffer.emptyBuf α cap)
      (by simp [ReplayBuffer.emptyBuf])
    rw [h]
    simp only [ReplayBuffer.emptyBuf, List.nil_append, List.length_nil, Nat.zero_add]
    rw [hlen]
    congr 1
    omega

theorem buffer_capacity_fifo_witness :
    ([10, 20, 30] : List ℕ).length = 2 + 1
    ∧ ((ReplayBuffer.emptyBuf ℕ 2).insertAll [10, 20, 30]).data = ([10, 20, 30] : List ℕ).drop 1
    ∧ ((ReplayBuffer.emptyBuf ℕ 2).insertAll [10, 20, 30]).data = [20, 30] :=
  ⟨by decide, (buffer_capacity_fifo ℕ 2 1 [10, 20, 30] (by decide)).2.2, by decide⟩

/-- C4: when the buffer holds at least `batch_size` entries, `sample`
returns exactly `batch_size` entries read off distinct in-range indices;
when it holds fewer, `sample` fails with `InsufficientDataError`. -/
theorem sample_contract (α : Type) [Inhabited α] (b : ReplayBuffer α) (batch seed : ℕ) :
    (batch ≤ b.size →
      ∃ idxs : List ℕ, idxs.length = batch ∧ idxs.Nodup ∧ (∀ i ∈ idxs, i < b.size)
        ∧ b.sample batch seed = Except.ok (idxs.map fun i => b.data.getD i default))
    ∧ (b.size < batch → b.sample batch seed = Except.error SampleError.insufficientData) := by
  constructor
  · intro h
    refine ⟨sampleIndices b.size batch seed, sampleIndices_length _ _ _,
      sampleIndices_nodup _ _ _ h, ?_, ?_⟩
    · intro i hi
      rcases Nat.eq_zero_or_pos b.size with hz | hpos
      · rw [hz] at h
        have hb : batch = 0 := Nat.le_zero.mp h
        rw [hb, hz] at hi
        simp [sampleIndices] at hi
      · exact sampleIndices_lt _ _ _ hpos i hi
    · simp [ReplayBuffer.sample, not_lt.mpr h, sampledBatch]
  · intro h
    simp [ReplayBuffer.sample, h]

theorem sample_contract_witness :
    (2 ≤ (⟨2, [5, 7]⟩ : ReplayBuffer ℕ).size)
    ∧ (∃ idxs : List ℕ, idxs.length = 2 ∧ idxs.Nodup
        ∧ (∀ i ∈ idxs, i < (⟨2, [5, 7]⟩ : ReplayBuffer ℕ).size)
        ∧ (⟨2, [5, 7]⟩ : ReplayBuffer ℕ).sample 2 0
            = Except.ok (idxs.map fun i => (⟨2, [5, 7]⟩ : ReplayBuffer ℕ).data.getD i default))
    ∧ ((⟨2, [5]⟩ : ReplayBuffer ℕ).size < 3)
    ∧ (⟨2, [5]⟩ : ReplayBuffer ℕ).sample 3 0 = Except.error SampleError.insufficientData
    ∧ (⟨2, [5, 7]⟩ : ReplayBuffer ℕ).sample 2 0 = Except.ok [5, 7] :=
  ⟨by decide, (sample_contract ℕ ⟨2, [5, 7]⟩ 2 0).1 (by decide), by decide,
    (sample_contract ℕ ⟨2, [5]⟩ 3 0).2 (by decide), by rfl⟩

/-- C6: `select_action` returns the uniform random action when the draw
falls below epsilon (the exploring branch passes the uniform draw through
unchanged over the full action set), otherwise the argmax of
`predict(state)`, ties broken toward the lowest index; with `epsilon = 0`
it is deterministic and always the argmax. -/
theorem select_action_contract (predictQ : List ℚ → List ℚ) (s : List ℚ) (eps : ℚ)
    (n : ℕ) (rv : ℚ) (ra : ℕ) :
    (rv < eps → selectAction predictQ s eps n rv ra = ra % n
      ∧ (ra < n → selectAction predictQ s eps n rv ra = ra))
    ∧ (eps ≤ rv → selectAction predictQ s eps n rv ra = argmaxIdx (predictQ s))
    ∧ (eps = 0 → 0 ≤ rv → selectAction predictQ s eps n rv ra = argmaxIdx (predictQ s))
    ∧ (predictQ s ≠ [] →
        argmaxIdx (predictQ s) < (predictQ s).length
        ∧ (predictQ s).getD (argmaxIdx (predictQ s)) 0 = listMax (predictQ s)
        ∧ ∀ j, j < argmaxIdx (predictQ s) → (predictQ s).getD j 0 < listMax (predictQ s)) := by
  refine ⟨fun h => ⟨by simp [selectAction, if_pos h],
      fun hra => by simp [selectAction, if_pos h, Nat.mod_eq_of_lt hra]⟩,
    fun h => by simp [selectAction, if_neg (not_lt.mpr h)],
    fun h0 hrv => ?_,
    fun hne => ⟨argmaxIdx_lt_length _ hne, getD_argmaxIdx _ hne,
      fun j hj => argmaxIdx_first _ j hj⟩⟩
  subst h0
  simp [selectAction, if_neg (not_lt.mpr hrv)]

theorem select_action_contract_witness :
    ((0 : ℚ) = 0) ∧ ((0 : ℚ) ≤ 1)
    ∧ selectAction (fun _ => [1, 5, 5]) [] 0 3 1 7 = argmaxIdx [1, 5, 5]
    ∧ ((fun (_ : List ℚ) => [(1 : ℚ), 5, 5]) [] ≠ [])
    ∧ argmaxIdx [(1 : ℚ), 5, 5] < ([(1 : ℚ), 5, 5]).length
    ∧ selectAction (fun _ => [1, 5, 5]) [] 0 3 1 7 = 1 :=
  ⟨rfl, by norm_num,
    (select_action_contract (fun _ => [1, 5, 5]) [] 0 3 1 7).2.2.1 rfl (by norm_num),
    by decide,
    ((select_action_contract (fun _ => [1, 5, 5]) [] 0 3 1 7).2.2.2 (by decide)).1,
    by decide⟩

/-- C7: the exported parameter blob is non-empty (for a network with at
least one real layer) and loadable, and loading the exported blob restores
the network exactly, so `predict` is unchanged by the round-trip. -/
theorem params_roundtrip (net : QNetwork) :
    ((∃ wb ∈ net.layers, wb.2 ≠ []) → net.exportParameters ≠ [])
    ∧ net.loadParameters net.exportParameters = net
    ∧ (∀ s, (net.loadParameters net.exportParameters).predict s = net.predict s) :=
  ⟨exportParameters_ne_nil net, loadParameters_exportParameters net,
    fun _ => by rw [loadParameters_exportParameters net]⟩

theorem params_roundtrip_witness :
    (∃ wb ∈ cNet2.layers, wb.2 ≠ [])
    ∧ cNet2.exportParameters ≠ []
    ∧ cNet2.loadParameters cNet2.exportParameters = cNet2
    ∧ (cNet2.loadParameters cNet2.exportParameters).predict [1, 1] = cNet2.predict [1, 1]
    ∧ cNet2.predict [1, 1] = [15] :=
  ⟨by decide, (params_roundtrip cNet2).1 (by decide), (params_roundtrip cNet2).2.1,
    (params_roundtrip cNet2).2.2 [1, 1],
    by norm_num [cNet2, QNetwork.predict, forwardLayers, matVec, addVec, dotProd,
      reluVec, max_def]⟩

/-- C10: with `monitor=False`, `state_dict=None` and `max_episodes=2000`,
the first notebook's `train_dqn` and the second notebook's `train_dqn`
return identical results (scores, final agent, per-episode epsilons and
step counts) for every environment, agent behaviour and parameter set. -/
theorem train_dqn_equiv {σ α τ : Type} (e : TrainEnv σ) (mw : TrainEnv σ → ℕ → TrainEnv σ)
    (a : AgentSim σ α τ) (p : Params) (sv : ℕ) :
    trainDqnA e mw a p false sv 2000 none = trainDqnB e a p :=
  trainLoop_eq e a p 2000 (a.mkAgent p) p.eps_start [] [] [] 0

/-- C1: in every learning step, the TD target computed for each sampled
transition equals the reward when the transition is terminal, and
`reward + γ · max_a' Q(next_state, a'; θ)` when non-terminal, where `Q` is
the same policy network `act` consults (no separate frozen target network). -/
theorem td_target_formula (upd : QNetwork → List Transition → List ℚ → QNetwork)
    (a : DQNAgentM) (t : Transition) (seed : ℕ) (lr : LearnRecord)
    (h : (DQNAgentM.stepWithLog upd a t seed).2 = some lr) :
    lr.targets.length = lr.batch.length
    ∧ (∀ i, i < lr.batch.length →
        lr.targets.getD i 0 =
          if (lr.batch.getD i default).done then (lr.batch.getD i default).reward
          else (lr.batch.getD i default).reward
            + a.params.discount * listMax (a.policy.predict (lr.batch.getD i default).next_state))
    ∧ (∀ (s : List ℚ) (eps rv : ℚ) (ra : ℕ),
        DQNAgentM.act a s eps rv ra = selectAction a.policy.predict s eps a.numActions rv ra) := by
  rw [stepWithLog_spec] at h
  by_cases hc : a.params.batch_size ≤ (a.buffer.insert t).size
  · rw [if_pos hc] at h
    dsimp only at h
    injection h with h
    subst h
    refine ⟨by simp, ?_, fun s eps rv ra => rfl⟩
    intro i hi
    dsimp only at hi ⊢
    rw [getD_map_lt _ _ i hi]
    rfl
  · rw [if_neg hc] at h
    dsimp only at h
    exact absurd h (by simp)

/-- The learning record of the TD-target witness: the one sampled
transition and its computed target. -/
def cLearnRecord : LearnRecord :=
  ⟨[cTransition], [tdTarget cParams1.discount cNet cTransition]⟩

theorem td_target_formula_witness :
    ((DQNAgentM.stepWithLog cUpd cAgentM cTransition 0).2 = some cLearnRecord)
    ∧ (0 < cLearnRecord.batch.length)
    ∧ cLearnRecord.targets.getD 0 0 =
        (if (cLearnRecord.batch.getD 0 default).done then (cLearnRecord.batch.getD 0 default).reward
         else (cLearnRecord.batch.getD 0 default).reward
           + cAgentM.params.discount
             * listMax (cAgentM.policy.predict (cLearnRecord.batch.getD 0 default).next_state))
    ∧ cLearnRecord.targets.getD 0 0 = 13/2 :=
  ⟨rfl, by decide,
    (td_target_formula cUpd cAgentM cTransition 0 cLearnRecord rfl).2.1 0 (by decide),
    by norm_num [cLearnRecord, tdTarget, cTransition, cParams1, cNet, QNetwork.predict,
      forwardLayers, matVec, addVec, dotProd, listMax, max_def]⟩

/-- C5: `step` always inserts the transition into the buffer; exactly when
the post-insert buffer size reaches the batch size, one batch of exactly
`batch_size` transitions is sampled and exactly one approximator update is
performed; below the batch size the learning phase is skipped silently. -/
theorem agent_step_guard (upd : QNetwork → List Transition → List ℚ → QNetwork)
    (a : DQNAgentM) (t : Transition) (seed : ℕ) :
    (DQNAgentM.stepWithLog upd a t seed).1.buffer = a.buffer.insert t
    ∧ (a.params.batch_size ≤ (a.buffer.insert t).size →
        ∃ lr : LearnRecord, (DQNAgentM.stepWithLog upd a t seed).2 = some lr
          ∧ lr.batch.length = a.params.batch_size
          ∧ (DQNAgentM.stepWithLog upd a t seed).1.updateCount = a.updateCount + 1
          ∧ (DQNAgentM.stepWithLog upd a t seed).1.policy = upd a.policy lr.batch lr.targets)
    ∧ ((a.buffer.insert t).size < a.params.batch_size →
        (DQNAgentM.stepWithLog upd a t seed).2 = none
        ∧ (DQNAgentM.stepWithLog upd a t seed).1.policy = a.policy
        ∧ (DQNAgentM.stepWithLog upd a t seed).1.updateCount = a.updateCount) := by
  rw [stepWithLog_spec]
  split_ifs with h
  · refine ⟨rfl, fun _ => ⟨⟨sampledBatch (a.buffer.insert t) a.params.batch_size seed,
      (sampledBatch (a.buffer.insert t) a.params.batch_size seed).map
        (tdTarget a.params.discount a.policy)⟩, rfl, ?_, rfl, rfl⟩,
      fun hlt => absurd h (not_le.mpr hlt)⟩
    simp [sampledBatch, sampleIndices]
  · exact ⟨rfl, fun hge => absurd hge h, fun _ => ⟨rfl, rfl, rfl⟩⟩

theorem agent_step_guard_witness :
    (cAgentM.params.batch_size ≤ (cAgentM.buffer.insert cTransition).size)
    ∧ (DQNAgentM.stepWithLog cUpd cAgentM cTransition 0).1.buffer
        = cAgentM.buffer.insert cTransition
    ∧ (∃ lr : LearnRecord, (DQNAgentM.stepWithLog cUpd cAgentM cTransition 0).2 = some lr
        ∧ lr.batch.length = cAgentM.params.batch_size
        ∧ (DQNAgentM.stepWithLog cUpd cAgentM cTransition 0).1.updateCount
            = cAgentM.updateCount + 1
        ∧ (DQNAgentM.stepWithLog cUpd cAgentM cTransition 0).1.policy
            = cUpd cAgentM.policy lr.batch lr.targets) :=
  ⟨by decide, (agent_step_guard cUpd cAgentM cTransition 0).1,
    (agent_step_guard cUpd cAgentM cTransition 0).2.1 (by decide)⟩

/-- The epsilon recorded for episode `j` of any `train_dqn` run is the
`j`-fold decayed `eps_start`. -/
theorem trainDqnA_epsUsed {σ α τ : Type} (e : TrainEnv σ) (mw : TrainEnv σ → ℕ → TrainEnv σ)
    (a : AgentSim σ α τ) (p : Params) (monitor : Bool) (sv maxE : ℕ) (sd : Option τ) :
    ∀ j, j < (trainDqnA e mw a p monitor sv maxE sd).epsUsed.length →
      (trainDqnA e mw a p monitor sv maxE sd).epsUsed.getD j 0 = epsSeq p j := by
  intro j hj
  simp only [trainDqnA] at hj ⊢
  exact trainLoopA_eps _ a p maxE _ p.eps_start [] [] [] 0 rfl
    (fun k hk => absurd hk (by simp)) j hj

/-- C2: under `0 ≤ eps_end ≤ eps_start` and `eps_decay ∈ [0,1]`, the
exploration rate stays in `[eps_end, eps_start]`, is monotonically
non-increasing across episodes, and the rate used in episode `j` of
`train_dqn` is exactly the `j`-fold application of
`ε ← max(eps_end, ε·eps_decay)` to `eps_start` (one update per episode). -/
theorem eps_decay_invariant (p : Params) (hend : 0 ≤ p.eps_end)
    (hle : p.eps_end ≤ p.eps_start) (_hd0 : 0 ≤ p.eps_decay) (hd1 : p.eps_decay ≤ 1) :
    (∀ n, p.eps_end ≤ epsSeq p n ∧ epsSeq p n ≤ p.eps_start)
    ∧ (∀ n, epsSeq p (n + 1) ≤ epsSeq p n)
    ∧ (∀ (σ α τ : Type) (e : TrainEnv σ) (mw : TrainEnv σ → ℕ → TrainEnv σ)
        (a : AgentSim σ α τ) (monitor : Bool) (sv maxE : ℕ) (sd : Option τ) (j : ℕ),
        j < (trainDqnA e mw a p monitor sv maxE sd).epsUsed.length →
        (trainDqnA e mw a p monitor sv maxE sd).epsUsed.getD j 0 = epsSeq p j) :=
  ⟨fun n => ⟨epsSeq_lower p hle n, epsSeq_upper p hend hle hd1 n⟩,
    fun n => epsSeq_antitone_step p hend hle hd1 n,
    fun _ _ _ e mw a monitor sv maxE sd => trainDqnA_epsUsed e mw a p monitor sv maxE sd⟩

/-- Evaluation of a one-episode run of the trivial environment: score 1,
one step, epsilon `eps_start`. -/
theorem cTrainOne (p : Params) :
    trainDqnA cEnv cWrap cAgent p false 1 1 none = ⟨[1], (), [p.eps_start], [1]⟩ := by
  have hep : runEpisode cEnv cAgent 0 p.eps_start () () 0 1000 = ((), 1, 1) := by
    rw [show (1000 : ℕ) = 999 + 1 from rfl]
    simp [runEpisode, cEnv, cAgent]
  have hwm : ¬ (195 : ℚ) ≤ windowMean [1] := by
    norm_num [windowMean]
  show trainLoopA cEnv cAgent p () p.eps_start [] [] [] 0 1 = _
  rw [show (1 : ℕ) = 0 + 1 from rfl]
  simp only [trainLoopA]
  rw [show cEnv.reset 0 = () from rfl, hep]
  dsimp only
  rw [List.nil_append, if_neg hwm]
  simp [trainLoopA]

/-- C8 counterexample: with `eps_start = 0 < 1 = eps_end` (satisfying the
claim's stated preconditions `eps_end ≥ 0`, `eps_decay ∈ [0,1]`), episode 0
runs with `ε = eps_start = 0`, but the claimed formula gives
`max(eps_end, eps_start·eps_decay^0) = 1`. -/
theorem eps_formula_counterexample :
    (0 ≤ cParamsBad.eps_end ∧ 0 ≤ cParamsBad.eps_decay ∧ cParamsBad.eps_decay ≤ 1)
    ∧ 0 < (trainDqnA cEnv cWrap cAgent cParamsBad false 1 1 none).epsUsed.length
    ∧ (trainDqnA cEnv cWrap cAgent cParamsBad false 1 1 none).epsUsed.getD 0 0
        ≠ max cParamsBad.eps_end (cParamsBad.eps_start * cParamsBad.eps_decay ^ 0) := by
  refine ⟨⟨by norm_num [cParamsBad], by norm_num [cParamsBad], by norm_num [cParamsBad]⟩, ?_, ?_⟩
  · rw [cTrainOne]
    norm_num
  · rw [cTrainOne]
    norm_num [cParamsBad, max_def]

/-- C8 (amended with the precondition `eps_end ≤ eps_start`): the
exploration rate passed to `agent.act` during episode `n` equals
`max(eps_end, eps_start · eps_decay^n)`, and episode 0 always runs with
`ε = eps_start`. -/
theorem eps_closed_form_in_loop (p : Params) (hend : 0 ≤ p.eps_end)
    (hd0 : 0 ≤ p.eps_decay) (hd1 : p.eps_decay ≤ 1) (hle : p.eps_end ≤ p.eps_start)
    {σ α τ : Type} (e : TrainEnv σ) (mw : TrainEnv σ → ℕ → TrainEnv σ)
    (a : AgentSim σ α τ) (monitor : Bool) (sv maxE : ℕ) (sd : Option τ) :
    (∀ n, n < (trainDqnA e mw a p monitor sv maxE sd).epsUsed.length →
      (trainDqnA e mw a p monitor sv maxE sd).epsUsed.getD n 0
        = max p.eps_end (p.eps_start * p.eps_decay ^ n))
    ∧ (0 < (trainDqnA e mw a p monitor sv maxE sd).epsUsed.length →
      (trainDqnA e mw a p monitor sv maxE sd).epsUsed.getD 0 0 = p.eps_start) := by
  constructor
  · intro n hn
    rw [trainDqnA_epsUsed e mw a p monitor sv maxE sd n hn,
      epsSeq_closed_form p hend hle hd0 hd1]
  · intro h0
    rw [trainDqnA_epsUsed e mw a p monitor sv maxE sd 0 h0]
    rfl

theorem eps_closed_form_in_loop_witness :
    (0 ≤ cParams.eps_end ∧ 0 ≤ cParams.eps_decay ∧ cParams.eps_decay ≤ 1
      ∧ cParams.eps_end ≤ cParams.eps_start)
    ∧ 0 < (trainDqnA cEnv cWrap cAgent cParams false 1 1 none).epsUsed.length
    ∧ (trainDqnA cEnv cWrap cAgent cParams false 1 1 none).epsUsed.getD 0 0
        = max cParams.eps_end (cParams.eps_start * cParams.eps_decay ^ 0)
    ∧ (trainDqnA cEnv cWrap cAgent cParams false 1 1 none).epsUsed.getD 0 0
        = cParams.eps_start :=
  ⟨by norm_num [cParams], by rw [cTrainOne]; norm_num,
    (eps_closed_form_in_loop cParams (by norm_num [cParams]) (by norm_num [cParams])
      (by norm_num [cParams]) (by norm_num [cParams]) cEnv cWrap cAgent false 1 1 none).1 0
      (by rw [cTrainOne]; norm_num),
    (eps_closed_form_in_loop cParams (by norm_num [cParams]) (by norm_num [cParams])
      (by norm_num [cParams]) (by norm_num [cParams]) cEnv cWrap cAgent false 1 1 none).2
      (by rw [cTrainOne]; norm_num)⟩

theorem eps_decay_invariant_witness :
    (0 ≤ cParams.eps_end ∧ cParams.eps_end ≤ cParams.eps_start
      ∧ 0 ≤ cParams.eps_decay ∧ cParams.eps_decay ≤ 1)
    ∧ (cParams.eps_end ≤ epsSeq cParams 2 ∧ epsSeq cParams 2 ≤ cParams.eps_start)
    ∧ epsSeq cParams 1 ≤ epsSeq cParams 0
    ∧ (trainDqnA cEnv cWrap cAgent cParams false 1 1 none).epsUsed.getD 0 0
        = epsSeq cParams 0 :=
  ⟨by norm_num [cParams],
    (eps_decay_invariant cParams (by norm_num [cParams]) (by norm_num [cParams])
      (by norm_num [cParams]) (by norm_num [cParams])).1 2,
    (eps_decay_invariant cParams (by norm_num [cParams]) (by norm_num [cParams])
      (by norm_num [cParams]) (by norm_num [cParams])).2.1 0,
    (eps_decay_invariant cParams (by norm_num [cParams]) (by norm_num [cParams])
      (by norm_num [cParams]) (by norm_num [cParams])).2.2 Unit Unit Unit cEnv cWrap cAgent
      false 1 1 none 0 (by rw [cTrainOne]; norm_num)⟩

/-- Resource bounds of the episode loop started from empty accumulators. -/
theorem trainLoopA_bounded {σ α τ : Type} (E : TrainEnv σ) (a : AgentSim σ α τ)
    (p : Params) (maxE : ℕ) (ag : α) :
    (trainLoopA E a p ag p.eps_start [] [] [] 0 maxE).scores.length ≤ maxE
    ∧ (∀ c ∈ (trainLoopA E a p ag p.eps_start [] [] [] 0 maxE).stepsUsed, c ≤ 1000)
    ∧ (∀ l, 1 ≤ l → l < (trainLoopA E a p ag p.eps_start [] [] [] 0 maxE).scores.length →
        windowMean ((trainLoopA E a p ag p.eps_start [] [] [] 0 maxE).scores.take l) < 195)
    ∧ (∀ i t, i < (trainLoopA E a p ag p.eps_start [] [] [] 0 maxE).stepsUsed.length →
        (∀ (s : σ) (act : ℕ), (E.step i t s act).2.2 = true) →
        (trainLoopA E a p ag p.eps_start [] [] [] 0 maxE).stepsUsed.getD i 0 ≤ t + 1) := by
  refine ⟨?_, ?_, ?_, ?_⟩
  · obtain ⟨x1, x2, x3, h1, -, -, -, -, hlen⟩ :=
      trainLoopA_ext E a p maxE ag p.eps_start [] [] [] 0
    rw [h1]
    simpa using hlen
  · exact trainLoopA_stepsUsed_le E a p maxE ag p.eps_start [] [] [] 0
      (fun c hc => absurd hc (by simp))
  · intro l hl
    exact trainLoopA_solve E a p maxE ag p.eps_start [] [] [] 0 l (by simpa using hl)
  · intro i t hi hdone
    have h := trainLoopA_done E a p maxE ag p.eps_start [] [] [] 0 i t (by simp) hi
      (fun s act => by simpa using hdone s act)
    exact h

/-- C9: `train_dqn` is total — it runs at most `max_episodes` episodes of at
most 1000 environment steps each, ends an episode as soon as the
environment reports `done`, and never continues past an episode whose
100-score window mean reaches 195. -/
theorem train_dqn_bounded {σ α τ : Type} (e : TrainEnv σ) (mw : TrainEnv σ → ℕ → TrainEnv σ)
    (a : AgentSim σ α τ) (p : Params) (monitor : Bool) (sv maxE : ℕ) (sd : Option τ) :
    (trainDqnA e mw a p monitor sv maxE sd).scores.length ≤ maxE
    ∧ (∀ c ∈ (trainDqnA e mw a p monitor sv maxE sd).stepsUsed, c ≤ 1000)
    ∧ (∀ l, 1 ≤ l → l < (trainDqnA e mw a p monitor sv maxE sd).scores.length →
        windowMean ((trainDqnA e mw a p monitor sv maxE sd).scores.take l) < 195)
    ∧ (∀ i t, i < (trainDqnA e mw a p monitor sv maxE sd).stepsUsed.length →
        (∀ (s : σ) (act : ℕ), ((if monitor then mw e sv else e).step i t s act).2.2 = true) →
        (trainDqnA e mw a p monitor sv maxE sd).stepsUsed.getD i 0 ≤ t + 1) := by
  exact trainLoopA_bounded (if monitor then mw e sv else e) a p maxE
    (match sd with
      | some x => a.loadStateDict (a.mkAgent p) x
      | none => a.mkAgent p)

theorem train_dqn_bounded_witness :
    (trainDqnA cEnv cWrap cAgent cParams false 1 1 none).scores.length ≤ 1
    ∧ 0 < (trainDqnA cEnv cWrap cAgent cParams false 1 1 none).stepsUsed.length
    ∧ (trainDqnA cEnv cWrap cAgent cParams false 1 1 none).stepsUsed.getD 0 0 ≤ 0 + 1 :=
  ⟨(train_dqn_bounded cEnv cWrap cAgent cParams false 1 1 none).1,
    by rw [cTrainOne]; norm_num,
    (train_dqn_bounded cEnv cWrap cAgent cParams false 1 1 none).2.2.2 0 0
      (by rw [cTrainOne]; norm_num) (fun _ _ => rfl)⟩

end DQN
